import Mathlib

/-!
Verification of the Graft ORM repository against its specification.

Part 1 embeds the installer (`python/setup.py`, `PostInstallCommand.download_binary`)
shallowly: the straight-line Python method becomes a pure Lean function whose result
records either the raised exception message (raised before any filesystem effect) or
the triple of effects it performs (directory creation, download, chmod) with the
concrete directory, URL and binary path.

Part 2 models the ORM core (Schema Introspector, Type Mapper, Code Generator, Query
Builder, Relation Resolver) from the specification, since that code is not part of
the sources at hand; each such definition's doc comment says so.
-/

namespace Graft

/-- Models Python's `str.lower()` as per-character lowercasing (the strings the
installer lowercases are ASCII platform and machine names). -/
def pyLower (s : String) : String := ⟨s.data.map Char.toLower⟩

/-- Embeds `VERSION = '1.0.0'` from setup.py. -/
def VERSION : String := "1.0.0"

/-- Embeds `REPO = 'Lumos-Labs-HQ/graft'` from setup.py. -/
def REPO : String := "Lumos-Labs-HQ/graft"

/-- Embeds `platform_map = {'darwin': 'darwin', 'linux': 'linux', 'windows': 'win32'}`
with `.get system`, which yields `None` for any key outside the dict. -/
def platform_map (system : String) : Option String :=
  if system = "darwin" then some "darwin"
  else if system = "linux" then some "linux"
  else if system = "windows" then some "win32"
  else none

/-- Embeds `arch_map = {'x86_64': 'x64', 'amd64': 'x64', 'arm64': 'arm64', 'aarch64': 'arm64'}`
with `.get machine`. -/
def arch_map (machine : String) : Option String :=
  if machine = "x86_64" then some "x64"
  else if machine = "amd64" then some "x64"
  else if machine = "arm64" then some "arm64"
  else if machine = "aarch64" then some "arm64"
  else none

/-- Outcome of `download_binary`. `raised msg` records that the method raised
`Exception(msg)` before reaching `os.makedirs`, `urllib.request.urlretrieve`
and `os.chmod`, so no directory creation, download or chmod happened.
`installed binDir url binaryPath` records that the method ran
`os.makedirs(binDir)`, then `urlretrieve(url, binaryPath)`, then
`os.chmod(binaryPath, ...)`, in that order. -/
inductive DownloadOutcome where
  | raised (msg : String)
  | installed (binDir : String) (url : String) (binaryPath : String)
  deriving DecidableEq, Repr

/-- The download URL the outcome carries, if the install branch was taken. -/
def DownloadOutcome.url : DownloadOutcome → Option String
  | .raised _ => none
  | .installed _ u _ => some u

/-- The local binary path the outcome carries, if the install branch was taken. -/
def DownloadOutcome.binaryPath : DownloadOutcome → Option String
  | .raised _ => none
  | .installed _ _ p => some p

/-- Embeds `PostInstallCommand.download_binary` from setup.py.
`rawSystem` and `rawMachine` stand for `platform.system()` and `platform.machine()`;
the method lowercases both before the dict lookups. `fileDir` stands for
`os.path.dirname(__file__)`; `os.path.join` is modelled as `/`-separated
concatenation. -/
def download_binary (rawSystem rawMachine fileDir : String) : DownloadOutcome :=
  let system := pyLower rawSystem
  let machine := pyLower rawMachine
  let mapped_platform := platform_map system
  let mapped_arch := arch_map machine
  match mapped_platform, mapped_arch with
  | some mp, some ma =>
    let binary_name := if system = "windows" then "graft.exe" else "graft"
    let download_name :=
      "graft-" ++ mp ++ "-" ++ ma ++ (if system = "windows" then ".exe" else "")
    let url := "https://github.com/" ++ REPO ++ "/releases/download/v" ++ VERSION
      ++ "/" ++ download_name
    let bin_dir := fileDir ++ "/graft_orm/bin"
    let binary_path := bin_dir ++ "/" ++ binary_name
    .installed bin_dir url binary_path
  | _, _ =>
    .raised ("Unsupported platform: " ++ system ++ "-" ++ machine)

/-- C8: for every (system, machine) pair whose lowercased system is not one of
darwin/linux/windows or whose lowercased machine is not one of
x86_64/amd64/arm64/aarch64, `download_binary` raises an Exception whose message
is `"Unsupported platform: "` followed by the lowercased pair — in particular the
message starts with `"Unsupported platform: "` — and (by the meaning of the
`raised` constructor) performs no directory creation, no download and no chmod. -/
theorem C8_unsupported_platform_raises (rawSystem rawMachine fileDir : String)
    (h : (pyLower rawSystem ≠ "darwin" ∧ pyLower rawSystem ≠ "linux" ∧
          pyLower rawSystem ≠ "windows") ∨
         (pyLower rawMachine ≠ "x86_64" ∧ pyLower rawMachine ≠ "amd64" ∧
          pyLower rawMachine ≠ "arm64" ∧ pyLower rawMachine ≠ "aarch64")) :
    download_binary rawSystem rawMachine fileDir =
      .raised ("Unsupported platform: " ++
        (pyLower rawSystem ++ "-" ++ pyLower rawMachine)) ∧
    ∃ tail, "Unsupported platform: " ++
        (pyLower rawSystem ++ "-" ++ pyLower rawMachine) =
      "Unsupported platform: " ++ tail := by
  constructor
  · unfold download_binary
    rcases h with ⟨h1, h2, h3⟩ | ⟨h1, h2, h3, h4⟩
    · simp only [platform_map, if_neg h1, if_neg h2, if_neg h3]
      cases arch_map (pyLower rawMachine) <;> simp [String.append_assoc]
    · simp only [arch_map, if_neg h1, if_neg h2, if_neg h3, if_neg h4]
      cases platform_map (pyLower rawSystem) <;> simp [String.append_assoc]
  · exact ⟨pyLower rawSystem ++ "-" ++ pyLower rawMachine, rfl⟩

/-- Witness for C8 at the concrete pair ("Plan9", "x86_64"). -/
theorem C8_unsupported_platform_raises_witness :
    download_binary "Plan9" "x86_64" "/site-packages" =
      .raised ("Unsupported platform: " ++
        (pyLower "Plan9" ++ "-" ++ pyLower "x86_64")) :=
  (C8_unsupported_platform_raises "Plan9" "x86_64" "/site-packages"
    (Or.inl (by decide))).1

/-- C9: on every supported (system, machine) pair, `download_binary` builds the
download URL deterministically as
`https://github.com/Lumos-Labs-HQ/graft/releases/download/v1.0.0/graft-<mapped_platform>-<mapped_arch>`,
appending `.exe` to the download name and naming the local binary `graft.exe`
exactly when the lowercased system is `windows` (local binary `graft` otherwise). -/
theorem C9_supported_platform_url (rawSystem rawMachine fileDir mp ma : String)
    (hp : platform_map (pyLower rawSystem) = some mp)
    (ha : arch_map (pyLower rawMachine) = some ma) :
    download_binary rawSystem rawMachine fileDir =
      .installed (fileDir ++ "/graft_orm/bin")
        ("https://github.com/Lumos-Labs-HQ/graft/releases/download/v1.0.0/"
          ++ ("graft-" ++ mp ++ "-" ++ ma
              ++ (if pyLower rawSystem = "windows" then ".exe" else "")))
        ((fileDir ++ "/graft_orm/bin") ++ "/"
          ++ (if pyLower rawSystem = "windows" then "graft.exe" else "graft")) := by
  unfold download_binary
  simp only [hp, ha, REPO, VERSION]
  rfl

/-- Witness for C9 at the concrete pair ("Windows", "AMD64"). -/
theorem C9_supported_platform_url_witness :
    download_binary "Windows" "AMD64" "/sp" =
      .installed ("/sp" ++ "/graft_orm/bin")
        ("https://github.com/Lumos-Labs-HQ/graft/releases/download/v1.0.0/"
          ++ ("graft-" ++ "win32" ++ "-" ++ "x64"
              ++ (if pyLower "Windows" = "windows" then ".exe" else "")))
        (("/sp" ++ "/graft_orm/bin") ++ "/"
          ++ (if pyLower "Windows" = "windows" then "graft.exe" else "graft")) :=
  C9_supported_platform_url "Windows" "AMD64" "/sp" "win32" "x64"
    (by decide) (by decide)

/-- C10: machine-name aliases agree at the installer's interface: `x86_64` and
`amd64` both map to architecture `x64`, `arm64` and `aarch64` both map to `arm64`,
and for any fixed system (and install directory) `download_binary` computes the
same download URL and the same local binary path for the two members of each alias
pair. -/
theorem C10_machine_alias_equivalence :
    (arch_map "x86_64" = some "x64" ∧ arch_map "amd64" = some "x64" ∧
     arch_map "arm64" = some "arm64" ∧ arch_map "aarch64" = some "arm64") ∧
    ∀ rawSystem fileDir : String,
      ((download_binary rawSystem "x86_64" fileDir).url =
         (download_binary rawSystem "amd64" fileDir).url ∧
       (download_binary rawSystem "x86_64" fileDir).binaryPath =
         (download_binary rawSystem "amd64" fileDir).binaryPath) ∧
      ((download_binary rawSystem "arm64" fileDir).url =
         (download_binary rawSystem "aarch64" fileDir).url ∧
       (download_binary rawSystem "arm64" fileDir).binaryPath =
         (download_binary rawSystem "aarch64" fileDir).binaryPath) := by
  refine ⟨by decide, fun rawSystem fileDir => ?_⟩
  have hx : pyLower "x86_64" = "x86_64" := by decide
  have hd : pyLower "amd64" = "amd64" := by decide
  have h6 : pyLower "arm64" = "arm64" := by decide
  have ha : pyLower "aarch64" = "aarch64" := by decide
  unfold download_binary
  rw [hx, hd, h6, ha]
  cases hplat : platform_map (pyLower rawSystem) <;>
    simp [hplat, arch_map, DownloadOutcome.url, DownloadOutcome.binaryPath]

/-! Part 2: the ORM core, modelled from the specification. -/

/-- Modelled from the spec: the supported backend dialects (the spec's keyword list
names postgresql, mysql and sqlite); the Backend Adapter has one implementation per
dialect. -/
inductive Dialect where
  | postgresql
  | mysql
  | sqlite
  deriving DecidableEq, Repr

/-- Modelled from the spec: the shared language-agnostic semantic type taxonomy of
the Type Mapper (integer widths, text, boolean, timestamp, decimal, binary, a
nullable wrapper) together with the explicit opaque/unsupported semantic type that
unknown raw types map to. -/
inductive SemanticType where
  | int16
  | int32
  | int64
  | text
  | boolean
  | timestamp
  | decimal
  | binary
  | nullable (base : SemanticType)
  | unsupported (raw : String)
  deriving DecidableEq, Repr

/-- Strips the nullable wrapper off a semantic type. -/
def SemanticType.baseOf : SemanticType → SemanticType
  | .nullable t => t
  | t => t

/-- Whether a semantic type is the opaque/unsupported fallback. -/
def SemanticType.isUnsupported : SemanticType → Bool
  | .unsupported _ => true
  | _ => false

/-- Modelled from the spec: the dialect-specific mapping table of the Type Mapper,
from raw type strings the introspector can emit to semantic types. -/
def dialectTypeTable : Dialect → List (String × SemanticType)
  | .postgresql =>
    [("smallint", .int16), ("integer", .int32), ("int", .int32), ("int4", .int32),
     ("bigint", .int64), ("int8", .int64), ("serial", .int32), ("bigserial", .int64),
     ("text", .text), ("varchar", .text), ("character varying", .text),
     ("char", .text), ("uuid", .text), ("json", .text), ("jsonb", .text),
     ("boolean", .boolean), ("bool", .boolean),
     ("timestamp", .timestamp), ("timestamptz", .timestamp), ("date", .timestamp),
     ("numeric", .decimal), ("decimal", .decimal), ("real", .decimal),
     ("double precision", .decimal), ("bytea", .binary)]
  | .mysql =>
    [("smallint", .int16), ("int", .int32), ("integer", .int32),
     ("bigint", .int64), ("text", .text), ("varchar", .text), ("char", .text),
     ("json", .text), ("tinyint(1)", .boolean), ("boolean", .boolean),
     ("datetime", .timestamp), ("timestamp", .timestamp), ("date", .timestamp),
     ("decimal", .decimal), ("numeric", .decimal), ("double", .decimal),
     ("float", .decimal), ("blob", .binary), ("varbinary", .binary)]
  | .sqlite =>
    [("integer", .int64), ("int", .int64), ("text", .text), ("varchar", .text),
     ("boolean", .boolean), ("datetime", .timestamp), ("numeric", .decimal),
     ("real", .decimal), ("blob", .binary)]

/-- Association-list lookup over a mapping table, first match wins. -/
def lookupType : List (String × SemanticType) → String → Option SemanticType
  | [], _ => none
  | (k, t) :: rest, raw => if raw = k then some t else lookupType rest raw

/-- A raw type string is recognized by a dialect when its mapping table has an
entry for it. -/
def recognizedType (d : Dialect) (raw : String) : Bool :=
  (lookupType (dialectTypeTable d) raw).isSome

/-- Modelled from the spec: the Type Mapper, a pure total function
`(dialect, raw_type_string, nullability) → SemanticType`; an unrecognized raw type
falls back to the explicit opaque/unsupported semantic type instead of failing,
and nullability is reflected as the nullable wrapper. -/
def typeMapper (d : Dialect) (raw : String) (nullable : Bool) : SemanticType :=
  let base :=
    match lookupType (dialectTypeTable d) raw with
    | some t => t
    | none => .unsupported raw
  if nullable then .nullable base else base

theorem lookupType_mem {table : List (String × SemanticType)} {raw : String}
    {t : SemanticType} (h : lookupType table raw = some t) :
    t ∈ table.map Prod.snd := by
  induction table with
  | nil => simp [lookupType] at h
  | cons p rest ih =>
    obtain ⟨k, v⟩ := p
    simp only [lookupType] at h
    by_cases hk : raw = k
    · rw [if_pos hk] at h
      simp [Option.some_inj.mp h]
    · rw [if_neg hk] at h
      simp [ih h]

theorem dialectTypeTable_no_unsupported (d : Dialect) :
    ∀ t ∈ (dialectTypeTable d).map Prod.snd,
      t.isUnsupported = false ∧ t.baseOf.isUnsupported = false := by
  cases d <;> decide

/-- C3: the Type Mapper is total — it is a function on all raw type strings of
every supported dialect — and (a) an unrecognized raw type maps to the explicit
opaque/unsupported semantic type rather than raising, while (b) a recognized raw
type never maps to the unsupported fallback (no recognized raw type causes a
throw; the model has no failure path at all). -/
theorem C3_type_mapper_total (d : Dialect) (raw : String) (nullable : Bool) :
    (recognizedType d raw = false →
      (typeMapper d raw nullable).baseOf = SemanticType.unsupported raw) ∧
    (recognizedType d raw = true →
      (typeMapper d raw nullable).baseOf.isUnsupported = false) := by
  constructor
  · intro h
    unfold recognizedType at h
    unfold typeMapper
    cases hl : lookupType (dialectTypeTable d) raw with
    | none => cases nullable <;> simp [SemanticType.baseOf]
    | some t => rw [hl] at h; simp at h
  · intro h
    unfold recognizedType at h
    unfold typeMapper
    cases hl : lookupType (dialectTypeTable d) raw with
    | none => rw [hl] at h; simp at h
    | some t =>
      have hmem := lookupType_mem hl
      obtain ⟨hns, hnb⟩ := dialectTypeTable_no_unsupported d t hmem
      cases nullable
      · simpa [SemanticType.baseOf] using hnb
      · simpa [SemanticType.baseOf] using hns

/-- Witness for C3 at dialect postgresql: the unrecognized raw type "geometry"
maps to the opaque/unsupported fallback, and the recognized raw type "integer"
does not. -/
theorem C3_type_mapper_total_witness :
    (typeMapper .postgresql "geometry" false).baseOf =
        SemanticType.unsupported "geometry" ∧
    (typeMapper .postgresql "integer" true).baseOf.isUnsupported = false :=
  ⟨(C3_type_mapper_total .postgresql "geometry" false).1 (by decide),
   (C3_type_mapper_total .postgresql "integer" true).2 (by decide)⟩

/-- Modelled from the spec: ColumnDef — name, source SQL type string, mapped
semantic type, nullability flag, default-value presence flag; the uniqueness flag
carries the per-column uniqueness the NormalizedSchema records (it drives the
generated `get_by_<unique_column>` methods). -/
structure ColumnDef where
  name : String
  sqlType : String
  semType : SemanticType
  nullable : Bool
  hasDefault : Bool
  isUnique : Bool
  deriving DecidableEq, Repr

/-- Modelled from the spec: ForeignKeyDef — referencing column(s) in order,
referenced table and column(s) in order, identified by its constraint name (the
spec requires disambiguation by constraint/column name). -/
structure ForeignKeyDef where
  constraintName : String
  columns : List String
  refTable : String
  refColumns : List String
  deriving DecidableEq, Repr

/-- Modelled from the spec: TableDef — name, ordered columns, foreign keys,
primary-key column set. -/
structure TableDef where
  name : String
  columns : List ColumnDef
  foreignKeys : List ForeignKeyDef
  primaryKey : List String
  deriving DecidableEq, Repr

/-- Modelled from the spec: NormalizedSchema — an ordered sequence of TableDef. -/
abbrev NormalizedSchema := List TableDef

/-- Renders a semantic type in the generated client source. -/
def renderSemanticType : SemanticType → String
  | .int16 => "Int16"
  | .int32 => "Int32"
  | .int64 => "Int64"
  | .text => "String"
  | .boolean => "Bool"
  | .timestamp => "Timestamp"
  | .decimal => "Decimal"
  | .binary => "Bytes"
  | .nullable t => "Optional[" ++ renderSemanticType t ++ "]"
  | .unsupported _ => "Opaque"

/-- Renders one record field of the generated record type; nullability is
reflected as an optional wrapper. -/
def renderColumn (c : ColumnDef) : String :=
  "  " ++ c.name ++ ": " ++
    (if c.nullable then "Optional[" ++ renderSemanticType c.semType ++ "]"
     else renderSemanticType c.semType)

/-- Name of the relation accessor the Code Generator emits for a foreign key,
disambiguated by the constraint name so that two foreign keys to the same target
never collide silently. -/
def relationAccessorName (fk : ForeignKeyDef) : String :=
  "get_" ++ fk.refTable ++ "_by_" ++ fk.constraintName

/-- The relation accessors a table's generated struct carries: exactly one per
ForeignKeyDef. -/
def relationAccessors (t : TableDef) : List String :=
  t.foreignKeys.map relationAccessorName

/-- The CRUD method names the Code Generator emits for a table. -/
def crudMethodNames (t : TableDef) : List String :=
  ["create", "get_by_primary_key"] ++
  (t.columns.filter (fun c => c.isUnique)).map (fun c => "get_by_" ++ c.name) ++
  ["update", "delete"]

/-- Renders one table's section of the generated client: the record type, the
CRUD methods and one relation accessor per foreign key. -/
def renderTable (t : TableDef) : String :=
  String.intercalate "\n"
    (("record " ++ t.name) :: t.columns.map renderColumn ++
      (crudMethodNames t).map (fun m => "  def " ++ m) ++
      (relationAccessors t).map (fun a => "  def " ++ a))

/-- Modelled from the spec: the Code Generator, a pure function
`NormalizedSchema → generated source text`; the emitted text is assembled only
from the schema's own fields in schema order, with no other input. -/
def codeGenerator (s : NormalizedSchema) : String :=
  String.intercalate "\n\n" (s.map renderTable)

/-- C2: the Code Generator is deterministic — any two runs over an identical
NormalizedSchema produce byte-identical generated source text (the generator is a
pure function of the schema alone, so equal schemas give equal output strings). -/
theorem C2_code_generator_deterministic (s₁ s₂ : NormalizedSchema)
    (h : s₁ = s₂) : codeGenerator s₁ = codeGenerator s₂ := by
  rw [h]

/-- Witness for C2 at a concrete one-table schema. -/
theorem C2_code_generator_deterministic_witness :
    codeGenerator [TableDef.mk "users"
        [ColumnDef.mk "id" "integer" .int32 false true false,
         ColumnDef.mk "email" "text" .text false false true]
        [] ["id"]] =
    codeGenerator [TableDef.mk "users"
        [ColumnDef.mk "id" "integer" .int32 false true false,
         ColumnDef.mk "email" "text" .text false false true]
        [] ["id"]] :=
  C2_code_generator_deterministic _ _ rfl

/-- Modelled from the spec: one row of the raw catalog response describing one
column of a foreign-key constraint (constraint name, referencing column,
referenced table, referenced column), in catalog order. -/
structure RawForeignKeyRow where
  constraintName : String
  column : String
  refTable : String
  refColumn : String
  deriving DecidableEq, Repr

/-- The distinct constraint names appearing in a raw catalog response, in first
appearance order. -/
def constraintNames (raws : List RawForeignKeyRow) : List String :=
  (raws.map (fun r => r.constraintName)).dedup

/-- Modelled from the spec: the Schema Introspector gathers all raw rows of one
constraint into a single ForeignKeyDef whose column lists keep catalog order. -/
def buildForeignKey (raws : List RawForeignKeyRow) (cname : String) :
    ForeignKeyDef :=
  let rows := raws.filter (fun r => r.constraintName == cname)
  { constraintName := cname
    columns := rows.map (fun r => r.column)
    refTable := (rows.map (fun r => r.refTable)).headD ""
    refColumns := rows.map (fun r => r.refColumn) }

/-- Modelled from the spec: the Schema Introspector's foreign-key normalization —
one ForeignKeyDef per distinct constraint name, never one per column. -/
def normalizeForeignKeys (raws : List RawForeignKeyRow) : List ForeignKeyDef :=
  (constraintNames raws).map (buildForeignKey raws)

/-- One batched fetch step of a FetchPlan, keyed on composite key tuples. -/
structure CompositeFetchStep where
  targetTable : String
  keyColumns : List String
  keyTuples : List (List (Option Int))
  deriving DecidableEq, Repr

/-- The composite key tuple a parent row contributes for a foreign key: the
values of the fk's referencing columns, in the fk's column order. -/
def compositeKeyTuple (fk : ForeignKeyDef) (row : List (String × Int)) :
    List (Option Int) :=
  fk.columns.map (fun c => row.lookup c)

/-- Modelled from the spec: the fetch-plan step the Relation Resolver creates for
one foreign-key edge — a single batched step over the distinct composite key
tuples of the parents, never one step per key column. -/
def planForForeignKey (fk : ForeignKeyDef)
    (parents : List (List (String × Int))) : List CompositeFetchStep :=
  [{ targetTable := fk.refTable
     keyColumns := fk.refColumns
     keyTuples := (parents.map (compositeKeyTuple fk)).dedup }]

theorem dedup_of_all_eq {α : Type} [DecidableEq α] :
    ∀ (l : List α) (a : α), l ≠ [] → (∀ x ∈ l, x = a) → l.dedup = [a] := by
  intro l a
  induction l with
  | nil => intro h _; exact absurd rfl h
  | cons x xs ih =>
    intro _ hall
    have hx : x = a := hall x (by simp)
    subst hx
    cases xs with
    | nil => simp
    | cons y ys =>
      have hxs : (y :: ys).dedup = [x] :=
        ih (by simp) (fun z hz => hall z (List.mem_cons_of_mem _ hz))
      have hy : y = x := hall y (by simp)
      have hmem : x ∈ y :: ys := by simp [hy]
      rw [List.dedup_cons_of_mem hmem, hxs]

/-- C7: a foreign key whose raw catalog rows list several columns under one
constraint name is normalized into a single ForeignKeyDef carrying the ordered
column list (never split into independent single-column keys); the Code Generator
emits exactly one relation accessor for it; and the fetch plan for the edge is a
single batched step keyed on the distinct composite key tuples. -/
theorem C7_composite_fk_single_def (raws : List RawForeignKeyRow) (cname : String)
    (hne : raws ≠ []) (hall : ∀ r ∈ raws, r.constraintName = cname) :
    normalizeForeignKeys raws = [buildForeignKey raws cname] ∧
    (buildForeignKey raws cname).columns = raws.map (fun r => r.column) ∧
    (∀ tname cols pk,
      (relationAccessors
        (TableDef.mk tname cols (normalizeForeignKeys raws) pk)).length = 1) ∧
    (∀ parents,
      (planForForeignKey (buildForeignKey raws cname) parents).length = 1 ∧
      ∀ step ∈ planForForeignKey (buildForeignKey raws cname) parents,
        step.keyTuples =
          (parents.map (compositeKeyTuple (buildForeignKey raws cname))).dedup) := by
  have hmapne : raws.map (fun r => r.constraintName) ≠ [] := by
    intro h
    exact hne (List.map_eq_nil_iff.mp h)
  have hcn : constraintNames raws = [cname] :=
    dedup_of_all_eq _ cname hmapne (by
      intro x hx
      obtain ⟨r, hr, rfl⟩ := List.mem_map.mp hx
      exact hall r hr)
  have hnorm : normalizeForeignKeys raws = [buildForeignKey raws cname] := by
    unfold normalizeForeignKeys
    rw [hcn]
    rfl
  have hfilter : raws.filter (fun r => r.constraintName == cname) = raws :=
    List.filter_eq_self.mpr (fun r hr => by simp [hall r hr])
  refine ⟨hnorm, ?_, ?_, ?_⟩
  · unfold buildForeignKey
    rw [hfilter]
  · intro tname cols pk
    simp [relationAccessors, hnorm]
  · intro parents
    exact ⟨rfl, by intro step hstep; simp [planForForeignKey] at hstep; simp [hstep]⟩

/-- Witness for C7 at a concrete two-column foreign key (columns a1, a2 of table
t1 referencing b1, b2 of table t2 under the single constraint fk_ab). -/
theorem C7_composite_fk_single_def_witness :
    normalizeForeignKeys
        [RawForeignKeyRow.mk "fk_ab" "a1" "t2" "b1",
         RawForeignKeyRow.mk "fk_ab" "a2" "t2" "b2"] =
      [buildForeignKey
        [RawForeignKeyRow.mk "fk_ab" "a1" "t2" "b1",
         RawForeignKeyRow.mk "fk_ab" "a2" "t2" "b2"] "fk_ab"] ∧
    (buildForeignKey
        [RawForeignKeyRow.mk "fk_ab" "a1" "t2" "b1",
         RawForeignKeyRow.mk "fk_ab" "a2" "t2" "b2"] "fk_ab").columns =
      ["a1", "a2"] :=
  have h := C7_composite_fk_single_def
    [RawForeignKeyRow.mk "fk_ab" "a1" "t2" "b1",
     RawForeignKeyRow.mk "fk_ab" "a2" "t2" "b2"] "fk_ab"
    (by decide) (by decide)
  ⟨h.1, h.2.1⟩

/-- Modelled from the spec: a literal value handed to the Query Builder. -/
inductive Value where
  | intV (n : Int)
  | strV (s : String)
  | boolV (b : Bool)
  | nullV
  deriving DecidableEq, Repr

/-- Modelled from the spec: the predicate tree of the internal statement model,
including dynamically constructed IN (...) lists. -/
inductive Pred where
  | eqCol (col : String) (v : Value)
  | inList (col : String) (vs : List Value)
  | andP (p q : Pred)
  | orP (p q : Pred)
  deriving DecidableEq, Repr

/-- The value-erased shape of a predicate tree: literal values are dropped, an IN
list keeps only its length (its placeholder count). -/
inductive PredShape where
  | eqCol (col : String)
  | inList (col : String) (n : Nat)
  | andP (p q : PredShape)
  | orP (p q : PredShape)
  deriving DecidableEq, Repr

/-- Erases a predicate tree to its shape. -/
def Pred.shape : Pred → PredShape
  | .eqCol c _ => .eqCol c
  | .inList c vs => .inList c vs.length
  | .andP p q => .andP p.shape q.shape
  | .orP p q => .orP p.shape q.shape

/-- The literal values of a predicate tree, in left-to-right order. -/
def Pred.literals : Pred → List Value
  | .eqCol _ v => [v]
  | .inList _ vs => vs
  | .andP p q => p.literals ++ q.literals
  | .orP p q => p.literals ++ q.literals

/-- Identifier quoting, delegated to the Backend Adapter. -/
def quoteIdent (name : String) : String := "\x22" ++ name ++ "\x22"

/-- Placeholder syntax, delegated to the Backend Adapter per dialect. -/
def placeholder (d : Dialect) (i : Nat) : String :=
  match d with
  | .postgresql => "$" ++ toString i
  | .mysql => "?"
  | .sqlite => "?"

/-- Modelled from the spec: rendering of a predicate tree into statement text plus
the bound-parameter list. Every literal goes into the parameter list; the text
holds only identifiers, SQL keywords and dialect placeholders (an IN list renders
one placeholder per element). The second component of the triple pairs the
collected parameters with the next free placeholder index. -/
def renderPred (d : Dialect) : Pred → Nat → String × List Value × Nat
  | .eqCol c v, i => (quoteIdent c ++ " = " ++ placeholder d i, [v], i + 1)
  | .inList c vs, i =>
    (quoteIdent c ++ " IN (" ++
       String.intercalate ", "
         ((List.range vs.length).map (fun k => placeholder d (i + k))) ++ ")",
     vs, i + vs.length)
  | .andP p q, i =>
    ("(" ++ (renderPred d p i).1 ++ " AND " ++
       (renderPred d q (renderPred d p i).2.2).1 ++ ")",
     (renderPred d p i).2.1 ++ (renderPred d q (renderPred d p i).2.2).2.1,
     (renderPred d q (renderPred d p i).2.2).2.2)
  | .orP p q, i =>
    ("(" ++ (renderPred d p i).1 ++ " OR " ++
       (renderPred d q (renderPred d p i).2.2).1 ++ ")",
     (renderPred d p i).2.1 ++ (renderPred d q (renderPred d p i).2.2).2.1,
     (renderPred d q (renderPred d p i).2.2).2.2)

/-- Modelled from the spec: the SELECT statement model (target table, projected
columns, optional predicate tree). -/
structure SelectModel where
  table : String
  columns : List String
  wherePred : Option Pred
  deriving DecidableEq, Repr

/-- The value-erased shape of a SELECT statement model. -/
structure SelectShape where
  table : String
  columns : List String
  whereShape : Option PredShape
  deriving DecidableEq, Repr

/-- Erases a SELECT statement model to its shape. -/
def SelectModel.shape (m : SelectModel) : SelectShape :=
  ⟨m.table, m.columns, m.wherePred.map Pred.shape⟩

/-- The literal values of a SELECT statement model, in order. -/
def SelectModel.literals (m : SelectModel) : List Value :=
  match m.wherePred with
  | none => []
  | some p => p.literals

/-- Modelled from the spec: the Query Builder's SELECT construction — statement
text plus bound-parameter list; placeholder numbering starts at 1. -/
def buildSelect (d : Dialect) (m : SelectModel) : String × List Value :=
  let base := "SELECT " ++ String.intercalate ", " (m.columns.map quoteIdent) ++
    " FROM " ++ quoteIdent m.table
  match m.wherePred with
  | none => (base, [])
  | some p => (base ++ " WHERE " ++ (renderPred d p 1).1, (renderPred d p 1).2.1)

theorem renderPred_shape_eq (d : Dialect) :
    ∀ (p q : Pred) (i : Nat), p.shape = q.shape →
      (renderPred d p i).1 = (renderPred d q i).1 ∧
      (renderPred d p i).2.2 = (renderPred d q i).2.2 := by
  intro p
  induction p with
  | eqCol c v =>
    intro q i h
    cases q with
    | eqCol c' v' =>
      simp only [Pred.shape, PredShape.eqCol.injEq] at h
      subst h
      exact ⟨rfl, rfl⟩
    | inList c' vs' => simp [Pred.shape] at h
    | andP q₁ q₂ => simp [Pred.shape] at h
    | orP q₁ q₂ => simp [Pred.shape] at h
  | inList c vs =>
    intro q i h
    cases q with
    | eqCol c' v' => simp [Pred.shape] at h
    | inList c' vs' =>
      simp only [Pred.shape, PredShape.inList.injEq] at h
      obtain ⟨hc, hn⟩ := h
      subst hc
      constructor <;> simp [renderPred, hn]
    | andP q₁ q₂ => simp [Pred.shape] at h
    | orP q₁ q₂ => simp [Pred.shape] at h
  | andP p₁ p₂ ih₁ ih₂ =>
    intro q i h
    cases q with
    | eqCol c' v' => simp [Pred.shape] at h
    | inList c' vs' => simp [Pred.shape] at h
    | andP q₁ q₂ =>
      simp only [Pred.shape, PredShape.andP.injEq] at h
      obtain ⟨h1, h2⟩ := h
      obtain ⟨ht1, hi1⟩ := ih₁ q₁ i h1
      obtain ⟨ht2, hi2⟩ := ih₂ q₂ (renderPred d q₁ i).2.2 h2
      simp only [renderPred]
      rw [ht1, hi1, ht2, hi2]
      exact ⟨rfl, rfl⟩
    | orP q₁ q₂ => simp [Pred.shape] at h
  | orP p₁ p₂ ih₁ ih₂ =>
    intro q i h
    cases q with
    | eqCol c' v' => simp [Pred.shape] at h
    | inList c' vs' => simp [Pred.shape] at h
    | andP q₁ q₂ => simp [Pred.shape] at h
    | orP q₁ q₂ =>
      simp only [Pred.shape, PredShape.orP.injEq] at h
      obtain ⟨h1, h2⟩ := h
      obtain ⟨ht1, hi1⟩ := ih₁ q₁ i h1
      obtain ⟨ht2, hi2⟩ := ih₂ q₂ (renderPred d q₁ i).2.2 h2
      simp only [renderPred]
      rw [ht1, hi1, ht2, hi2]
      exact ⟨rfl, rfl⟩

theorem renderPred_params (d : Dialect) :
    ∀ (p : Pred) (i : Nat), (renderPred d p i).2.1 = p.literals := by
  intro p
  induction p with
  | eqCol c v => intro i; rfl
  | inList c vs => intro i; rfl
  | andP p₁ p₂ ih₁ ih₂ => intro i; simp only [renderPred, Pred.literals, ih₁, ih₂]
  | orP p₁ p₂ ih₁ ih₂ => intro i; simp only [renderPred, Pred.literals, ih₁, ih₂]

/-- C4: on every code path of the Query Builder, including dynamically built
IN (...) lists, every literal value appears as a bound parameter and is never
string-concatenated into the statement text: the parameter list of a built SELECT
is exactly the model's literal list in order, and the statement text is a function
of the value-erased shape alone — two models that differ only in their literal
values (same tables, columns, predicate structure and IN-list lengths) produce
byte-identical statement text. -/
theorem C4_literals_only_bound (d : Dialect) (m₁ m₂ : SelectModel)
    (h : m₁.shape = m₂.shape) :
    (buildSelect d m₁).1 = (buildSelect d m₂).1 ∧
    (buildSelect d m₁).2 = m₁.literals ∧
    (buildSelect d m₂).2 = m₂.literals := by
  obtain ⟨t₁, cols₁, w₁⟩ := m₁
  obtain ⟨t₂, cols₂, w₂⟩ := m₂
  simp only [SelectModel.shape, SelectShape.mk.injEq] at h
  obtain ⟨ht, hc, hw⟩ := h
  subst ht
  subst hc
  cases w₁ with
  | none =>
    cases w₂ with
    | none => exact ⟨rfl, rfl, rfl⟩
    | some p₂ => simp at hw
  | some p₁ =>
    cases w₂ with
    | none => simp at hw
    | some p₂ =>
      simp only [Option.map_some', Option.some.injEq] at hw
      obtain ⟨htext, -⟩ := renderPred_shape_eq d p₁ p₂ 1 hw
      refine ⟨?_, ?_, ?_⟩
      · simp only [buildSelect, htext]
      · simp only [buildSelect, SelectModel.literals, renderPred_params]
      · simp only [buildSelect, SelectModel.literals, renderPred_params]

/-- Witness for C4: two SELECTs over users differing only in the literal values
of an IN (...) list of length 2 get identical statement text, and each binds
exactly its literals as parameters. -/
theorem C4_literals_only_bound_witness :
    (buildSelect .postgresql
        (SelectModel.mk "users" ["id", "email"]
          (some (Pred.inList "id" [Value.intV 1, Value.intV 2])))).1 =
      (buildSelect .postgresql
        (SelectModel.mk "users" ["id", "email"]
          (some (Pred.inList "id" [Value.intV 7, Value.intV 9])))).1 ∧
    (buildSelect .postgresql
        (SelectModel.mk "users" ["id", "email"]
          (some (Pred.inList "id" [Value.intV 1, Value.intV 2])))).2 =
      [Value.intV 1, Value.intV 2] :=
  have h := C4_literals_only_bound .postgresql
    (SelectModel.mk "users" ["id", "email"]
      (some (Pred.inList "id" [Value.intV 1, Value.intV 2])))
    (SelectModel.mk "users" ["id", "email"]
      (some (Pred.inList "id" [Value.intV 7, Value.intV 9])))
    (by decide)
  ⟨h.1, h.2.1⟩

/-- Modelled from the spec: relation cardinality — to-many (`has_many`) or to-one
(`belongs_to`). -/
inductive Card where
  | toMany
  | toOne
  deriving DecidableEq, Repr

/-- Modelled from the spec: RelationSpec — a recursive tagged structure: relation
name, cardinality, and the ordered child relations to eager-load below it, so
depth is structurally checkable. -/
inductive RelationSpec where
  | mk (name : String) (card : Card) (children : List RelationSpec)

/-- The relation name of a RelationSpec node. -/
def RelationSpec.name : RelationSpec → String
  | .mk n _ _ => n

/-- The cardinality of a RelationSpec node. -/
def RelationSpec.card : RelationSpec → Card
  | .mk _ c _ => c

/-- The child relations of a RelationSpec node. -/
def RelationSpec.children : RelationSpec → List RelationSpec
  | .mk _ _ cs => cs

/-- Modelled from the spec: a fetched record — its primary-key value plus its
foreign-key values keyed by relation name. -/
structure Row where
  pk : Nat
  fks : List (String × Nat)
  deriving DecidableEq, Repr

/-- The foreign-key value a row carries for a relation name, if any. -/
def rowFk (r : Row) (rel : String) : Option Nat := r.fks.lookup rel

/-- The children attached under one relation name of a ResultNode: a sequence for
a to-many relation, a single optional child for a to-one relation. -/
inductive RelChildren (α : Type) where
  | many (nodes : List α)
  | one (node : Option α)

/-- Modelled from the spec: ResultNode — the assembled typed record plus a mapping
from relation name to its attached children. -/
inductive ResultNode where
  | mk (row : Row) (rels : List (String × RelChildren ResultNode))

/-- The record of a ResultNode. -/
def ResultNode.row : ResultNode → Row
  | .mk r _ => r

/-- The relation mapping of a ResultNode. -/
def ResultNode.rels : ResultNode → List (String × RelChildren ResultNode)
  | .mk _ rs => rs

/-- One resolved relation edge: its name, its cardinality, and the fully resolved
nodes of all rows the edge's batched query returned. -/
abbrev ResolvedEdge := String × Card × List ResultNode

/-- Modelled from the spec: attaching one resolved edge to one parent record —
partition the edge's children by their foreign-key value; a parent with zero
matching children gets an empty sequence (to-many) or an explicit absent value
(to-one), never a missing relation key. -/
def attachTo (p : Row) (e : ResolvedEdge) : RelChildren ResultNode :=
  match e.2.1 with
  | .toMany => .many (e.2.2.filter (fun c => rowFk c.row e.1 == some p.pk))
  | .toOne => .one (e.2.2.find? (fun c => some c.row.pk == rowFk p e.1))

/-- Modelled from the spec: assembling the ResultNode for every parent row — each
node carries one entry per requested edge, in request order. -/
def assemble (rows : List Row) (edges : List ResolvedEdge) : List ResultNode :=
  rows.map (fun r => ResultNode.mk r (edges.map (fun e => (e.1, attachTo r e))))

/-- Modelled from the spec: the distinct key values one edge's batched query
needs — parent primary keys for a to-many edge, parent foreign-key values for a
to-one edge. -/
def collectKeys (spec : RelationSpec) (parents : List Row) : List Nat :=
  match spec.card with
  | .toMany => (parents.map (fun p => p.pk)).dedup
  | .toOne => (parents.filterMap (fun p => rowFk p spec.name)).dedup

/-- Modelled from the spec: the Relation Resolver's per-level loop. `db rel keys`
stands for the one batched `IN (...)` query issued for edge `rel` over the
collected key set. For each edge at the current level it issues one batched query,
recurses into the edge's children with the fetched rows as the new parents, and
assembles the fetched rows into ResultNodes; the second component counts the
queries issued. -/
def resolveEdgeList (db : String → List Nat → List Row) :
    List RelationSpec → List Row → List ResolvedEdge × Nat
  | [], _ => ([], 0)
  | RelationSpec.mk name card children :: rest, parents =>
    ((name, card,
        assemble (db name (collectKeys (RelationSpec.mk name card children) parents))
          (resolveEdgeList db children
            (db name (collectKeys (RelationSpec.mk name card children) parents))).1) ::
      (resolveEdgeList db rest parents).1,
     1 + (resolveEdgeList db children
            (db name (collectKeys (RelationSpec.mk name card children) parents))).2 +
       (resolveEdgeList db rest parents).2)

/-- Modelled from the spec: executing the whole fetch plan — the root query (one
query, yielding `rootRows`), then the per-edge batched queries, then assembly of
the nested result tree; the second component is the total query count. -/
def executePlan (db : String → List Nat → List Row) (rootRows : List Row)
    (specs : List RelationSpec) : List ResultNode × Nat :=
  (assemble rootRows (resolveEdgeList db specs rootRows).1,
   1 + (resolveEdgeList db specs rootRows).2)

/-- The number of relation edges of a requested tree (its node count). -/
def totalEdges : List RelationSpec → Nat
  | [] => 0
  | RelationSpec.mk _ _ children :: rest => 1 + totalEdges children + totalEdges rest

theorem resolveEdgeList_count (db : String → List Nat → List Row) :
    ∀ (specs : List RelationSpec) (parents : List Row),
      (resolveEdgeList db specs parents).2 = totalEdges specs
  | [], _ => by simp only [resolveEdgeList, totalEdges]
  | RelationSpec.mk name card children :: rest, parents => by
    have h₁ := resolveEdgeList_count db children
      (db name (collectKeys (RelationSpec.mk name card children) parents))
    have h₂ := resolveEdgeList_count db rest parents
    simp only [resolveEdgeList, totalEdges, h₁, h₂]

/-- C1: for every RelationSpec tree with E total relation edges and every root
result set, executing the fetch plan issues exactly 1 + E database queries, and
the query count is independent of the rows at every level (it does not depend on
the root rows or on what any batched query returns). -/
theorem C1_query_count (db : String → List Nat → List Row) (rootRows : List Row)
    (specs : List RelationSpec) :
    (executePlan db rootRows specs).2 = 1 + totalEdges specs ∧
    ∀ (db₂ : String → List Nat → List Row) (rootRows₂ : List Row),
      (executePlan db₂ rootRows₂ specs).2 = (executePlan db rootRows specs).2 := by
  constructor
  · simp only [executePlan, resolveEdgeList_count]
  · intro db₂ rootRows₂
    simp only [executePlan, resolveEdgeList_count]

/-- C5: in an assembled level of the result tree, every parent record gets a node
whose relation mapping names exactly the requested edges in order — the relation
key is never omitted — and a parent with zero matching children still has an
entry for the edge: an empty sequence for a to-many relation, an explicit absent
value for a to-one relation. -/
theorem C5_empty_relations_present (rows : List Row) (edges : List ResolvedEdge)
    (p : Row) (hp : p ∈ rows) :
    ∃ node, node ∈ assemble rows edges ∧
      node.row = p ∧
      node.rels.map Prod.fst = edges.map Prod.fst ∧
      ∀ e ∈ edges,
        (e.2.1 = Card.toMany →
          (∀ c ∈ e.2.2, rowFk c.row e.1 ≠ some p.pk) →
          (e.1, RelChildren.many ([] : List ResultNode)) ∈ node.rels) ∧
        (e.2.1 = Card.toOne →
          (∀ c ∈ e.2.2, some c.row.pk ≠ rowFk p e.1) →
          (e.1, RelChildren.one (none : Option ResultNode)) ∈ node.rels) := by
  refine ⟨ResultNode.mk p (edges.map (fun e => (e.1, attachTo p e))), ?_, rfl, ?_, ?_⟩
  · exact List.mem_map.mpr ⟨p, hp, rfl⟩
  · simp [ResultNode.rels, List.map_map, Function.comp]
  · intro e he
    obtain ⟨ename, ecard, echildren⟩ := e
    constructor
    · intro hcard hnone
      simp only at hcard
      subst hcard
      have hatt : attachTo p (ename, Card.toMany, echildren) =
          RelChildren.many ([] : List ResultNode) := by
        simp only [attachTo]
        congr 1
        rw [List.filter_eq_nil_iff]
        intro c hc
        simp only [beq_iff_eq]
        exact hnone c hc
      have hmem : ((ename, Card.toMany, echildren).1,
          attachTo p (ename, Card.toMany, echildren)) ∈
          (edges.map (fun e => (e.1, attachTo p e))) :=
        List.mem_map.mpr ⟨(ename, Card.toMany, echildren), he, rfl⟩
      rw [hatt] at hmem
      simpa [ResultNode.rels] using hmem
    · intro hcard hnone
      simp only at hcard
      subst hcard
      have hatt : attachTo p (ename, Card.toOne, echildren) =
          RelChildren.one (none : Option ResultNode) := by
        simp only [attachTo]
        congr 1
        rw [List.find?_eq_none]
        intro c hc
        simp only [beq_iff_eq]
        exact hnone c hc
      have hmem : ((ename, Card.toOne, echildren).1,
          attachTo p (ename, Card.toOne, echildren)) ∈
          (edges.map (fun e => (e.1, attachTo p e))) :=
        List.mem_map.mpr ⟨(ename, Card.toOne, echildren), he, rfl⟩
      rw [hatt] at hmem
      simpa [ResultNode.rels] using hmem

/-- Witness for C5 at one parent row with a to-many edge and a to-one edge that
both have zero matching children. -/
theorem C5_empty_relations_present_witness :
    ∃ node, node ∈ assemble [Row.mk 1 []]
        [("posts", Card.toMany, ([] : List ResultNode)),
         ("author", Card.toOne, ([] : List ResultNode))] ∧
      node.row = Row.mk 1 [] ∧
      node.rels.map Prod.fst = ["posts", "author"] ∧
      ∀ e ∈ [("posts", Card.toMany, ([] : List ResultNode)),
             ("author", Card.toOne, ([] : List ResultNode))],
        (e.2.1 = Card.toMany →
          (∀ c ∈ e.2.2, rowFk c.row e.1 ≠ some (Row.mk 1 []).pk) →
          (e.1, RelChildren.many ([] : List ResultNode)) ∈ node.rels) ∧
        (e.2.1 = Card.toOne →
          (∀ c ∈ e.2.2, some c.row.pk ≠ rowFk (Row.mk 1 []) e.1) →
          (e.1, RelChildren.one (none : Option ResultNode)) ∈ node.rels) :=
  C5_empty_relations_present [Row.mk 1 []]
    [("posts", Card.toMany, ([] : List ResultNode)),
     ("author", Card.toOne, ([] : List ResultNode))]
    (Row.mk 1 []) (by simp)

/-- Modelled from the spec: a caller's relation request — either an explicit
finite RelationSpec tree, or an auto-expansion of a cyclic relation (such as a
self-referencing foreign key) with an optional explicit traversal-depth stop
condition. -/
inductive RelationRequest where
  | explicitTree (specs : List RelationSpec)
  | autoExpand (rel : String) (card : Card) (depth : Option Nat)

/-- Unrolls a cyclic relation to exactly the requested traversal depth: a chain
of nested RelationSpec nodes of the same relation name, one per level. -/
def expandCycle (rel : String) (card : Card) : Nat → List RelationSpec
  | 0 => []
  | d + 1 => [RelationSpec.mk rel card (expandCycle rel card d)]

/-- Modelled from the spec: planning a relation request. The planner never
auto-expands a cycle beyond an explicit stop condition: an auto-expansion with an
explicit depth unrolls to exactly that depth, and an unbounded auto-expansion
(no stop condition) fails with RelationDepthError — the planner returns the
error instead of looping (it is a total function). -/
def planRequest : RelationRequest → Except String (List RelationSpec)
  | .explicitTree specs => .ok specs
  | .autoExpand rel card (some d) => .ok (expandCycle rel card d)
  | .autoExpand _ _ none => .error "RelationDepthError"

/-- The traversal depth of a requested forest. -/
def forestDepth : List RelationSpec → Nat
  | [] => 0
  | RelationSpec.mk _ _ children :: rest =>
    max (1 + forestDepth children) (forestDepth rest)

theorem expandCycle_forestDepth (rel : String) (card : Card) :
    ∀ d : Nat, forestDepth (expandCycle rel card d) = d
  | 0 => by simp only [expandCycle, forestDepth]
  | d + 1 => by
    simp only [expandCycle, forestDepth, expandCycle_forestDepth rel card d]
    omega

theorem expandCycle_totalEdges (rel : String) (card : Card) :
    ∀ d : Nat, totalEdges (expandCycle rel card d) = d
  | 0 => by simp only [expandCycle, totalEdges]
  | d + 1 => by
    simp only [expandCycle, totalEdges, expandCycle_totalEdges rel card d]
    omega

/-- C6: a cyclic relation (e.g. a self-referencing foreign key) is expanded only
to the explicitly requested traversal depth — an auto-expansion request with
stop condition d plans a tree of depth exactly d, and resolving it issues
exactly 1 + d queries for any database and root set — while an unbounded request
with no explicit stop condition makes the resolution call terminate with
RelationDepthError instead of looping forever. -/
theorem C6_cycle_depth_bounded (rel : String) (card : Card) :
    (∀ d : Nat,
      planRequest (RelationRequest.autoExpand rel card (some d)) =
        Except.ok (expandCycle rel card d) ∧
      forestDepth (expandCycle rel card d) = d ∧
      ∀ (db : String → List Nat → List Row) (rootRows : List Row),
        (executePlan db rootRows (expandCycle rel card d)).2 = 1 + d) ∧
    planRequest (RelationRequest.autoExpand rel card none) =
      Except.error "RelationDepthError" := by
  refine ⟨fun d => ⟨rfl, expandCycle_forestDepth rel card d, ?_⟩, rfl⟩
  intro db rootRows
  simp only [executePlan, resolveEdgeList_count, expandCycle_totalEdges]

end Graft
